import Mathlib

/-!
Verification of the traefik-realip plugin (`plugin.go`).

The plugin resolves the "real" client IP of an HTTP request from a
configured, ordered list of header specifications, applies trust gating
based on the connection's remote address, and writes the result into a
destination header.  Request headers are modelled as a total function
from (canonical) header names to values, with the empty string standing
for an absent header, matching `http.Header.Get` returning `""` when the
header is missing.  The `IpLookupHelper` component (CIDR trust table) is
absent from the available sources (only its tests exist), so it is
modelled from the specification; everything else is translated directly
from `plugin.go`.
-/

namespace RealIP

/-- Go `unicode.IsSpace`, restricted to the code points Go treats as
whitespace (Latin-1 plus the Unicode `White_Space` code points). Used by
`strings.TrimSpace`. -/
def isSpaceGo (c : Char) : Bool :=
  c.toNat = 32 || c.toNat = 9 || c.toNat = 10 || c.toNat = 11 ||
  c.toNat = 12 || c.toNat = 13 || c.toNat = 133 || c.toNat = 160 ||
  c.toNat = 5760 || (8192 ≤ c.toNat && c.toNat ≤ 8202) ||
  c.toNat = 8232 || c.toNat = 8233 || c.toNat = 8239 ||
  c.toNat = 8287 || c.toNat = 12288

/-- Go `strings.TrimSpace`: drop leading and trailing whitespace. -/
def trimSpace (s : String) : String :=
  ⟨List.reverse (List.dropWhile isSpaceGo
      (List.reverse (List.dropWhile isSpaceGo s.toList)))⟩

/-- Split a character list at every occurrence of the separator `c`,
keeping empty fields, exactly like Go `strings.Split` with a one-character
separator (an empty input yields the single field `[]`). -/
def splitOnChar (c : Char) : List Char → List (List Char)
  | [] => [[]]
  | x :: xs =>
    let r := splitOnChar c xs
    if x = c then [] :: r
    else
      match r with
      | [] => [[x]]
      | g :: gs => (x :: g) :: gs

/-- Go `strings.Split s (String.singleton c)` at the `String` level. -/
def goSplit (c : Char) (s : String) : List String :=
  (splitOnChar c s.toList).map (fun l => (⟨l⟩ : String))

/-- Does the list contain the character? (Go `strings.IndexByte _ c >= 0`.) -/
def containsChar : List Char → Char → Bool
  | [], _ => false
  | x :: xs, c => x = c || containsChar xs c

/-- Index of the first occurrence of `c` (Go `bytealg.IndexByteString`). -/
def firstIdx : List Char → Char → Option Nat
  | [], _ => none
  | x :: xs, c => if x = c then some 0 else (firstIdx xs c).map (fun i => i + 1)

/-- Index of the last occurrence of `c` (Go `bytealg.LastIndexByteString`). -/
def lastIdx : List Char → Char → Option Nat
  | [], _ => none
  | x :: xs, c =>
    match lastIdx xs c with
    | some i => some (i + 1)
    | none => if x = c then some 0 else none

/-- Go `net.SplitHostPort` on a character list: returns `some (host, port)`
on success and `none` where Go returns an error.  Faithful to the Go
implementation: the port starts after the last colon; a leading `[` must be
matched by a `]` directly before that colon; stray brackets or extra colons
in a bracketless host are errors. -/
def splitHostPortList (s : List Char) : Option (List Char × List Char) :=
  match lastIdx s ':' with
  | none => none
  | some i =>
    match s with
    | '[' :: _ =>
      match firstIdx s ']' with
      | none => none
      | some endi =>
        if endi + 1 = s.length then none
        else if endi + 1 = i then
          if containsChar (s.drop 1) '[' then none
          else if containsChar (s.drop (endi + 1)) ']' then none
          else some ((s.take endi).drop 1, s.drop (i + 1))
        else none
    | _ =>
      let host := s.take i
      if containsChar host ':' then none
      else if containsChar s '[' then none
      else if containsChar s ']' then none
      else some (host, s.drop (i + 1))

/-- `net.SplitHostPort` at the `String` level. -/
def splitHostPort (s : String) : Option (String × String) :=
  (splitHostPortList s.toList).map (fun p => ((⟨p.1⟩ : String), (⟨p.2⟩ : String)))

/-- `cleanIPAddress` from `plugin.go`: trim whitespace; if the result still
parses as `host:port` (or `[host]:port`) keep only the host; otherwise
return the trimmed string unchanged.  Never fails. -/
def cleanIPAddress (ip : String) : String :=
  let t := trimSpace ip
  if t = "" then ""
  else
    match splitHostPort t with
    | some hp => hp.1
    | none => t

example : cleanIPAddress " 203.0.113.1:8080 " = "203.0.113.1" := by decide
example : cleanIPAddress "[2001:db8::1]:8080" = "2001:db8::1" := by decide
example : cleanIPAddress "invalid-ip" = "invalid-ip" := by decide
example : cleanIPAddress "8.8.8.8:1234" = "8.8.8.8" := by decide
example : cleanIPAddress "::1" = "::1" := by decide
example : goSplit ',' "a,,b" = ["a", "", "b"] := by decide

/-- An IP address as handled by the trust classifier: an address-family tag
(`isV6`) and the address value as a natural number (below `2 ^ 32` for v4,
below `2 ^ 128` for v6). -/
structure IPAddr where
  isV6 : Bool
  value : Nat
deriving DecidableEq

/-- Modelled from the spec: a `NetworkRange` is "an address family tag
(v4/v6), a base address, and a prefix length". -/
structure NetworkRange where
  isV6 : Bool
  base : Nat
  prefixLen : Nat
deriving DecidableEq

/-- Is `c` an ASCII decimal digit? -/
def isDigit (c : Char) : Bool := 48 ≤ c.toNat && c.toNat ≤ 57

/-- Parse one dotted-quad field: 1 to 3 decimal digits with value ≤ 255. -/
def parseDecByte (s : String) : Option Nat :=
  let l := s.toList
  if l = [] then none
  else if 3 < l.length then none
  else if l.all isDigit then
    let v := l.foldl (fun a c => a * 10 + (c.toNat - 48)) 0
    if v ≤ 255 then some v else none
  else none

/-- Modelled from the spec: parse an IPv4 address in dotted-quad form into
its 32-bit value (`IpLookupHelper`'s address parsing is absent from the
sources). -/
def parseIPv4 (s : String) : Option Nat :=
  match goSplit '.' s with
  | [a, b, c, d] =>
    match parseDecByte a, parseDecByte b, parseDecByte c, parseDecByte d with
    | some x, some y, some z, some w => some (((x * 256 + y) * 256 + z) * 256 + w)
    | _, _, _, _ => none
  | _ => none

/-- Value of one hexadecimal digit, if `c` is one. -/
def hexVal (c : Char) : Option Nat :=
  if 48 ≤ c.toNat ∧ c.toNat ≤ 57 then some (c.toNat - 48)
  else if 97 ≤ c.toNat ∧ c.toNat ≤ 102 then some (c.toNat - 87)
  else if 65 ≤ c.toNat ∧ c.toNat ≤ 70 then some (c.toNat - 55)
  else none

/-- Parse one IPv6 group: 1 to 4 hexadecimal digits. -/
def parseHexGroup (s : String) : Option Nat :=
  let l := s.toList
  if l = [] then none
  else if 4 < l.length then none
  else
    l.foldl
      (fun acc c =>
        match acc, hexVal c with
        | some a, some h => some (a * 16 + h)
        | _, _ => none)
      (some 0)

/-- Split a character list at the first occurrence of the two-character
sequence `::`, if any. -/
def splitDoubleColon : List Char → Option (List Char × List Char)
  | [] => none
  | [_] => none
  | a :: b :: rest =>
    if a = ':' ∧ b = ':' then some ([], rest)
    else
      match splitDoubleColon (b :: rest) with
      | some lr => some (a :: lr.1, lr.2)
      | none => none

/-- Parse a colon-separated run of IPv6 groups; the empty string denotes
zero groups. -/
def groupsOf (s : String) : Option (List Nat) :=
  if s = "" then some []
  else (goSplit ':' s).mapM parseHexGroup

/-- Combine 16-bit groups (most significant first) into one value. -/
def assembleV6 (gs : List Nat) : Nat := gs.foldl (fun a g => a * 65536 + g) 0

/-- Modelled from the spec: parse an IPv6 address (full form, or compressed
with a single `::` standing for at least one zero group) into its 128-bit
value (`IpLookupHelper`'s address parsing is absent from the sources). -/
def parseIPv6 (s : String) : Option Nat :=
  match splitDoubleColon s.toList with
  | some lr =>
    if (splitDoubleColon lr.2).isSome then none
    else
      match groupsOf ⟨lr.1⟩, groupsOf ⟨lr.2⟩ with
      | some lg, some rg =>
        if lg.length + rg.length ≤ 7 then
          some (assembleV6 (lg ++ List.replicate (8 - lg.length - rg.length) 0 ++ rg))
        else none
      | _, _ => none
  | none =>
    let gs := goSplit ':' s
    if gs.length = 8 then (gs.mapM parseHexGroup).map assembleV6 else none

/-- Modelled from the spec: parse a textual address into an `IPAddr`
(Go `net.ParseIP`, used by the trust-classifier query path). -/
def parseIP (s : String) : Option IPAddr :=
  match parseIPv4 s with
  | some v => some ⟨false, v⟩
  | none =>
    match parseIPv6 s with
    | some v => some ⟨true, v⟩
    | none => none

/-- Number of address bits of a family: 128 for v6, 32 for v4. -/
def familyBits (b : Bool) : Nat := if b then 128 else 32

/-- Modelled from the spec: a range contains an address when the families
match and the first `prefixLen` bits of the address equal those of the
range's base ("cross-family comparisons never match"). -/
def rangeContains (r : NetworkRange) (ip : IPAddr) : Bool :=
  (r.isV6 == ip.isV6) &&
    (ip.value / 2 ^ (familyBits r.isV6 - r.prefixLen)
      == r.base / 2 ^ (familyBits r.isV6 - r.prefixLen))

/-- Modelled from the spec: parse one CIDR string `address/prefixLen`,
requiring the prefix length to lie within the family's bounds (≤ 32 for v4,
≤ 128 for v6); any malformation yields `none`. -/
def parseCIDRstr (s : String) : Option NetworkRange :=
  match goSplit '/' s with
  | [addr, plen] =>
    let l := plen.toList
    if l = [] then none
    else if l.all isDigit then
      let n := l.foldl (fun a c => a * 10 + (c.toNat - 48)) 0
      match parseIP addr with
      | some ip =>
        if ip.isV6 then
          if n ≤ 128 then some ⟨true, ip.value, n⟩ else none
        else
          if n ≤ 32 then some ⟨false, ip.value, n⟩ else none
      | none => none
    else none
  | _ => none

/-- Modelled from the spec: `NewIpLookupHelper` parses every configured
CIDR string; "any failure aborts construction entirely with an error
identifying the offending entry; partial tables are never returned". -/
def NewIpLookupHelper : List String → Except String (List NetworkRange)
  | [] => Except.ok []
  | c :: rest =>
    match parseCIDRstr c with
    | none => Except.error ("invalid CIDR address: " ++ c)
    | some r =>
      match NewIpLookupHelper rest with
      | Except.ok t => Except.ok (r :: t)
      | Except.error e => Except.error e

/-- Modelled from the spec: `IsContained` reports whether any range of the
table contains the address and, if so, the prefix length of the most
specific (largest-prefix) containing range. -/
def IsContained : List NetworkRange → IPAddr → Bool × Nat
  | [], _ => (false, 0)
  | r :: rest, ip =>
    let acc := IsContained rest ip
    if rangeContains r ip then
      (true, if acc.1 then max r.prefixLen acc.2 else r.prefixLen)
    else acc

example : parseCIDRstr "10.0.0.0/8" = some ⟨false, 10 * 2 ^ 24, 8⟩ := by decide
example : parseCIDRstr "invalid-cidr" = none := by decide
example : parseCIDRstr "192.168.1.0/33" = none := by decide
example : parseCIDRstr "2001:db8::/129" = none := by decide
example : parseCIDRstr "192.168.1" = none := by decide
example : parseCIDRstr "" = none := by decide
example : parseIP "8.8.8.8" = some ⟨false, 134744072⟩ := by decide
example : (parseIP "::1") = some ⟨true, 1⟩ := by decide
example :
    (parseCIDRstr "2001:db8::/32").map NetworkRange.prefixLen = some 32 := by decide

/-- `HeaderConfig` from `plugin.go`: a header name paired with a signed
depth for positional selection among comma-separated tokens. -/
structure HeaderConfig where
  headerName : String
  depth : Int
deriving DecidableEq

/-- The `Plugin` instance data from `plugin.go` (the `next` handler and
instance name carry no resolution semantics and are omitted).
`trustedIPs = none` models the nil `*IpLookupHelper`. -/
structure Plugin where
  enabled : Bool
  headerName : String
  processHeaders : List HeaderConfig
  forceOverwrite : Bool
  trustAll : Bool
  trustedIPs : Option (List NetworkRange)
  trustedHeader : String

/-- `Config` from `plugin.go`. -/
structure Config where
  enabled : Bool
  headerName : String
  processHeaders : List HeaderConfig
  forceOverwrite : Bool
  trustAll : Bool
  trustedIPs : List String
  trustedHeader : String

/-- `New` from `plugin.go`: validates the configuration, builds the trusted
IP lookup helper when `trustAll` is off and trusted IPs are configured, and
fails (refusing to initialize) when the helper's construction fails. -/
def NewPlugin (cfg : Config) : Except String Plugin :=
  if cfg.enabled ∧ cfg.headerName = "" then
    Except.error "headerName cannot be empty when plugin is enabled"
  else if cfg.enabled ∧ cfg.processHeaders = [] then
    Except.error "processHeaders cannot be empty when plugin is enabled"
  else if cfg.enabled ∧ cfg.trustAll = false ∧ cfg.trustedIPs = [] then
    Except.error "trustedIPs cannot be empty when trustAll is false"
  else
    let helper : Except String (Option (List NetworkRange)) :=
      if cfg.trustAll = false ∧ cfg.trustedIPs ≠ [] then
        match NewIpLookupHelper cfg.trustedIPs with
        | Except.ok t => Except.ok (some t)
        | Except.error e => Except.error ("failed to parse trusted IPs: " ++ e)
      else Except.ok none
    match helper with
    | Except.error e => Except.error e
    | Except.ok tips =>
      Except.ok
        { enabled := cfg.enabled
          headerName := cfg.headerName
          processHeaders := cfg.processHeaders
          forceOverwrite := cfg.forceOverwrite
          trustAll := cfg.trustAll
          trustedIPs := tips
          trustedHeader := cfg.trustedHeader }

/-- `isRequestTrusted` from `plugin.go`: trust everything under `trustAll`;
otherwise clean and parse the connection's remote address and look it up in
the trusted table, treating every per-request failure (empty cleaned
address, unparseable address) as "not trusted". -/
def isRequestTrusted (p : Plugin) (remoteAddr : String) : Bool :=
  if p.trustAll then true
  else
    match p.trustedIPs with
    | none => false
    | some table =>
      let clientIP := cleanIPAddress remoteAddr
      if clientIP = "" then false
      else
        match parseIP clientIP with
        | none => false
        | some ip => (IsContained table ip).1

/-- The token-cleaning pipeline inside `extractRealIP`: split the raw
header value on commas, clean every token with `cleanIPAddress`, and keep
only the non-empty results. -/
def cleanTokens (v : String) : List String :=
  ((goSplit ',' v).map cleanIPAddress).filter (fun s => decide (s ≠ ""))

/-- The depth logic inside `extractRealIP`: any negative depth selects the
leftmost token; a non-negative depth `d` selects index `n - 1 - d` counted
with `0` as the rightmost token, yielding nothing when that index falls
outside the list. -/
def selectByDepth (l : List String) (depth : Int) : Option String :=
  if depth < 0 then l[0]?
  else
    let rightIndex : Int := (l.length : Int) - 1 - depth
    if 0 ≤ rightIndex ∧ rightIndex < (l.length : Int) then l[rightIndex.toNat]?
    else none

/-- One iteration of the loop in `extractRealIP`: determine the raw source
value for the spec (the synthetic `clientAddress` name always reads the
connection's remote address; other names are skipped when the trust gate is
active and are otherwise read from the headers), then clean, select by
depth, and yield the selected non-empty token, with `none` meaning
"continue with the next spec".  `gateActive` is the loop's skip condition
`!isTrusted && p.trustedIPs != nil`. -/
def processSpec (hc : HeaderConfig) (gateActive : Bool)
    (headers : String → String) (remoteAddr : String) : Option String :=
  let headerValue : Option String :=
    if hc.headerName = "clientAddress" then some remoteAddr
    else if gateActive then none
    else some (headers hc.headerName)
  match headerValue with
  | none => none
  | some v =>
    if v = "" then none
    else
      let cleanIPs := cleanTokens v
      if cleanIPs = [] then none
      else
        match selectByDepth cleanIPs hc.depth with
        | none => none
        | some ip => if ip = "" then none else some ip

/-- The spec-list walk of `extractRealIP`: first spec that yields a value
wins; an exhausted list yields the empty string. -/
def extractLoop : List HeaderConfig → Bool → (String → String) → String → String
  | [], _, _, _ => ""
  | hc :: rest, g, h, ra =>
    match processSpec hc g h ra with
    | some ip => ip
    | none => extractLoop rest g h ra

/-- `extractRealIP` from `plugin.go`. -/
def extractRealIP (p : Plugin) (headers : String → String) (remoteAddr : String)
    (isTrusted : Bool) : String :=
  extractLoop p.processHeaders (!isTrusted && p.trustedIPs.isSome) headers remoteAddr

/-- `req.Header.Set`: update one header, leaving all others unchanged. -/
def hSet (h : String → String) (n v : String) : String → String :=
  fun m => if m = n then v else h m

/-- The trust-indicator write at the start of `ServeHTTP`: when an
indicator header is configured, set it to `"yes"` or `"no"` according to
the trust classification. -/
def trustHeaderStep (p : Plugin) (isTrusted : Bool)
    (h : String → String) : String → String :=
  if p.trustedHeader = "" then h
  else hSet h p.trustedHeader (if isTrusted then "yes" else "no")

/-- `ServeHTTP` from `plugin.go`, as its effect on the request's headers:
when disabled, pass the headers through; otherwise classify trust, write
the optional trust indicator, resolve the real IP from the (updated)
headers, and write the destination header when `forceOverwrite` is set or
the resolved value is non-empty.  The request's remote address is only
read, never written. -/
def serveHTTP (p : Plugin) (h : String → String) (remoteAddr : String) :
    String → String :=
  if p.enabled = false then h
  else
    let isTrusted := isRequestTrusted p remoteAddr
    let h1 := trustHeaderStep p isTrusted h
    let realIP := extractRealIP p h1 remoteAddr isTrusted
    if p.forceOverwrite || realIP ≠ "" then hSet h1 p.headerName realIP
    else h1

/-- The value `ServeHTTP` resolves for a request (the `realIP` local). -/
def resolvedIP (p : Plugin) (h : String → String) (remoteAddr : String) : String :=
  extractRealIP p (trustHeaderStep p (isRequestTrusted p remoteAddr) h)
    remoteAddr (isRequestTrusted p remoteAddr)

example :
    selectByDepth ["A", "B", "C"] (-1) = some "A" ∧
    selectByDepth ["A", "B", "C"] 0 = some "C" ∧
    selectByDepth ["A", "B", "C"] 1 = some "B" ∧
    selectByDepth ["A", "B", "C"] 5 = none := by decide

example : cleanTokens "203.0.113.1, 198.51.100.1, 192.168.1.1" =
    ["203.0.113.1", "198.51.100.1", "192.168.1.1"] := by decide

/-- A configuration used by the concrete witnesses below: trust gating is
active (`trustAll = false`, one trusted range `10.0.0.0/8`). -/
def egPlugin : Plugin :=
  { enabled := true
    headerName := "X-Real-IP"
    processHeaders := [⟨"X-Forwarded-For", -1⟩, ⟨"clientAddress", -1⟩]
    forceOverwrite := true
    trustAll := false
    trustedIPs := some [⟨false, 10 * 2 ^ 24, 8⟩]
    trustedHeader := "X-Is-Trusted" }

/-- Headers used by the concrete witnesses below: only `X-Forwarded-For`
is present, carrying a client-supplied value. -/
def egHeaders : String → String :=
  fun n => if n = "X-Forwarded-For" then "fake-ip" else ""

example : serveHTTP egPlugin egHeaders "8.8.8.8:1234" "X-Real-IP" = "8.8.8.8" := by
  decide

/-- C3: depth selection over a cleaned token list of length `n ≥ 1`: any
negative depth selects index 0; a non-negative depth `d < n` selects index
`n - 1 - d`; a non-negative depth `d ≥ n` yields no value, and a spec that
yields no value lets resolution continue with the next spec.  Concretely on
`[A,B,C]`: depth −1 ⇒ A, 0 ⇒ C, 1 ⇒ B, 5 ⇒ nothing. -/
theorem depth_selection (l : List String) (d : Int) (hn : l ≠ []) :
    (d < 0 → selectByDepth l d = l[0]?) ∧
    (0 ≤ d → d < (l.length : Int) →
      selectByDepth l d = l[l.length - 1 - d.toNat]?) ∧
    ((l.length : Int) ≤ d → selectByDepth l d = none) ∧
    (selectByDepth ["A", "B", "C"] (-1) = some "A" ∧
      selectByDepth ["A", "B", "C"] 0 = some "C" ∧
      selectByDepth ["A", "B", "C"] 1 = some "B" ∧
      selectByDepth ["A", "B", "C"] 5 = none) ∧
    (∀ (hc : HeaderConfig) (g : Bool) (h : String → String) (ra : String)
        (rest : List HeaderConfig), processSpec hc g h ra = none →
      extractLoop (hc :: rest) g h ra = extractLoop rest g h ra) := by
  have hlen : 0 < l.length := List.length_pos.mpr hn
  refine ⟨?_, ?_, ?_, by decide, ?_⟩
  · intro hd
    simp [selectByDepth, hd]
  · intro h0 hlt
    have hnneg : ¬ d < 0 := by omega
    have hcond : 0 ≤ (l.length : Int) - 1 - d ∧
        (l.length : Int) - 1 - d < (l.length : Int) := by omega
    have hidx : ((l.length : Int) - 1 - d).toNat = l.length - 1 - d.toNat := by
      omega
    simp [selectByDepth, hnneg, hcond, hidx]
  · intro hge
    have hnneg : ¬ d < 0 := by omega
    have hcond : ¬ (0 ≤ (l.length : Int) - 1 - d ∧
        (l.length : Int) - 1 - d < (l.length : Int)) := by omega
    simp [selectByDepth, hnneg, hcond]
    omega
  · intro hc g h ra rest hnone
    simp [extractLoop, hnone]

/-- C3 witness: the theorem applied to the three-token list at depth 5. -/
theorem depth_selection_witness :
    selectByDepth ["A", "B", "C"] 5 = none :=
  ((depth_selection ["A", "B", "C"] 5 (by decide)).2.2.1 (by decide))

/-- C4: first-match-wins — `extractRealIP`'s loop returns the value of the
first spec that yields one, independently of all later specs, and returns
the empty string when every spec yields nothing. -/
theorem first_match_wins (g : Bool) (h : String → String) (ra : String) :
    (∀ (pre : List HeaderConfig) (s : HeaderConfig) (post : List HeaderConfig)
        (v : String),
      (∀ a ∈ pre, processSpec a g h ra = none) →
      processSpec s g h ra = some v →
      extractLoop (pre ++ s :: post) g h ra = v) ∧
    (∀ specs : List HeaderConfig,
      (∀ a ∈ specs, processSpec a g h ra = none) →
      extractLoop specs g h ra = "") := by
  constructor
  · intro pre s post v hpre hs
    induction pre with
    | nil => simp [extractLoop, hs]
    | cons a t ih =>
      have ha : processSpec a g h ra = none := hpre a (by simp)
      have ht : ∀ x ∈ t, processSpec x g h ra = none :=
        fun x hx => hpre x (by simp [hx])
      simpa [extractLoop, ha] using ih ht
  · intro specs hall
    induction specs with
    | nil => rfl
    | cons a t ih =>
      have ha : processSpec a g h ra = none := hall a (by simp)
      have ht : ∀ x ∈ t, processSpec x g h ra = none :=
        fun x hx => hall x (by simp [hx])
      simpa [extractLoop, ha] using ih ht

/-- C4 witness: with gating active, the skipped `X-Forwarded-For` spec is
passed over and the synthetic spec's cleaned connection address wins. -/
theorem first_match_wins_witness :
    extractLoop ([⟨"X-Forwarded-For", -1⟩] ++ ⟨"clientAddress", -1⟩ :: [])
      true egHeaders "8.8.8.8:1234" = "8.8.8.8" :=
  (first_match_wins true egHeaders "8.8.8.8:1234").1
    [⟨"X-Forwarded-For", -1⟩] ⟨"clientAddress", -1⟩ [] "8.8.8.8"
    (by decide) (by decide)

/-- C5: token cleaning — the concrete examples from the spec; every token
surviving `cleanTokens` is non-empty and is the cleaning of one of the
comma-separated fields (no validation beyond cleaning); a trimmed token
without a recognizable port suffix passes through unchanged, and one with a
port suffix keeps only the host part. -/
theorem token_cleaning :
    cleanIPAddress " 203.0.113.1:8080 " = "203.0.113.1" ∧
    cleanIPAddress "[2001:db8::1]:8080" = "2001:db8::1" ∧
    cleanIPAddress "invalid-ip" = "invalid-ip" ∧
    (∀ (v s : String), s ∈ cleanTokens v →
      s ≠ "" ∧ ∃ tok ∈ goSplit ',' v, s = cleanIPAddress tok) ∧
    (∀ t : String, trimSpace t ≠ "" → splitHostPort (trimSpace t) = none →
      cleanIPAddress t = trimSpace t) ∧
    (∀ (t host port : String), splitHostPort (trimSpace t) = some (host, port) →
      cleanIPAddress t = host) := by
  refine ⟨by decide, by decide, by decide, ?_, ?_, ?_⟩
  · intro v s hs
    simp only [cleanTokens, List.mem_filter, List.mem_map, decide_eq_true_eq] at hs
    obtain ⟨⟨tok, htok, hEq⟩, hne⟩ := hs
    exact ⟨hne, tok, htok, hEq.symm⟩
  · intro t hne hsp
    simp [cleanIPAddress, hne, hsp]
  · intro t host port hsp
    have hne : trimSpace t ≠ "" := by
      intro h0
      have hnone : splitHostPort "" = none := by decide
      rw [h0, hnone] at hsp
      exact Option.noConfusion hsp
    simp [cleanIPAddress, hne, hsp]

/-- C5 witness: the theorem applied to a raw value with a trailing empty
field; the surviving token is the port-stripped cleaning of the first
field. -/
theorem token_cleaning_witness :
    "203.0.113.1" ≠ "" ∧
    ∃ tok ∈ goSplit ',' " 203.0.113.1:8080 ,", "203.0.113.1" = cleanIPAddress tok :=
  token_cleaning.2.2.2.1 " 203.0.113.1:8080 ," "203.0.113.1" (by decide)

/-- With the trust gate active, a non-synthetic spec is skipped without its
header being read. -/
theorem processSpec_gate_skip (hc : HeaderConfig) (h : String → String)
    (ra : String) (hne : hc.headerName ≠ "clientAddress") :
    processSpec hc true h ra = none := by
  simp [processSpec, hne]

/-- With the trust gate active, a single spec's outcome does not depend on
the request's headers at all. -/
theorem processSpec_gate_indep (hc : HeaderConfig) (ra : String)
    (h1 h2 : String → String) :
    processSpec hc true h1 ra = processSpec hc true h2 ra := by
  by_cases hs : hc.headerName = "clientAddress"
  · simp [processSpec, hs]
  · rw [processSpec_gate_skip hc h1 ra hs, processSpec_gate_skip hc h2 ra hs]

/-- With the trust gate active, the whole spec walk does not depend on the
request's headers. -/
theorem extractLoop_gate_indep (specs : List HeaderConfig) (ra : String)
    (h1 h2 : String → String) :
    extractLoop specs true h1 ra = extractLoop specs true h2 ra := by
  induction specs with
  | nil => rfl
  | cons hc rest ih =>
    simp only [extractLoop, processSpec_gate_indep hc ra h1 h2, ih]

/-- With the trust gate active, the spec walk coincides with the walk over
only the synthetic `clientAddress` specs. -/
theorem extractLoop_gate_filter (specs : List HeaderConfig) (ra : String)
    (h : String → String) :
    extractLoop specs true h ra =
      extractLoop (specs.filter fun hc => hc.headerName == "clientAddress")
        true h ra := by
  induction specs with
  | nil => rfl
  | cons hc rest ih =>
    by_cases hs : hc.headerName = "clientAddress"
    · have hfilter : (hc :: rest).filter
          (fun x => x.headerName == "clientAddress") =
          hc :: rest.filter (fun x => x.headerName == "clientAddress") := by
        simp [List.filter_cons, hs]
      rw [hfilter]
      simp only [extractLoop, ih]
    · have hfilter : (hc :: rest).filter
          (fun x => x.headerName == "clientAddress") =
          rest.filter (fun x => x.headerName == "clientAddress") := by
        simp [List.filter_cons, hs]
      rw [hfilter]
      simp only [extractLoop, processSpec_gate_skip hc h ra hs]
      exact ih

/-- C1: with trust gating active (`trustAll = false`, a trusted table
configured) and the connection classified untrusted, the resolved address
does not depend on any header value — two requests differing only in
header values resolve identically — and the resolution equals the walk
over only the synthetic `clientAddress` specs, which read the raw remote
address. -/
theorem trust_gating_independence (p : Plugin) (tbl : List NetworkRange)
    (ra : String) (_hta : p.trustAll = false) (hips : p.trustedIPs = some tbl)
    (hun : isRequestTrusted p ra = false) (h1 h2 : String → String) :
    extractRealIP p h1 ra (isRequestTrusted p ra) =
      extractRealIP p h2 ra (isRequestTrusted p ra) ∧
    extractRealIP p h1 ra (isRequestTrusted p ra) =
      extractLoop (p.processHeaders.filter fun hc => hc.headerName == "clientAddress")
        true h1 ra := by
  have hsome : p.trustedIPs.isSome = true := by rw [hips]; rfl
  have hgate : (!(isRequestTrusted p ra) && p.trustedIPs.isSome) = true := by
    rw [hun, hsome]
    rfl
  constructor
  · rw [extractRealIP, extractRealIP, hgate]
    exact extractLoop_gate_indep p.processHeaders ra h1 h2
  · rw [extractRealIP, hgate]
    exact extractLoop_gate_filter p.processHeaders ra h1

/-- C1 witness: under the example gating configuration, a spoofed
`X-Forwarded-For` header and a differing header map resolve to the same
address, which is the cleaned connection address. -/
theorem trust_gating_independence_witness :
    extractRealIP egPlugin egHeaders "8.8.8.8:1234"
        (isRequestTrusted egPlugin "8.8.8.8:1234") =
      extractRealIP egPlugin (fun _ => "203.0.113.99") "8.8.8.8:1234"
        (isRequestTrusted egPlugin "8.8.8.8:1234") ∧
    extractRealIP egPlugin egHeaders "8.8.8.8:1234"
        (isRequestTrusted egPlugin "8.8.8.8:1234") =
      extractLoop
        (egPlugin.processHeaders.filter fun hc => hc.headerName == "clientAddress")
        true egHeaders "8.8.8.8:1234" :=
  trust_gating_independence egPlugin [⟨false, 10 * 2 ^ 24, 8⟩] "8.8.8.8:1234"
    rfl rfl (by decide) egHeaders (fun _ => "203.0.113.99")

/-- When the plugin is enabled, `ServeHTTP` is the output-application step
applied to the post-indicator header state and the resolved value. -/
theorem serveHTTP_enabled (p : Plugin) (h : String → String) (ra : String)
    (hen : p.enabled = true) :
    serveHTTP p h ra =
      (if p.forceOverwrite || resolvedIP p h ra ≠ "" then
        hSet (trustHeaderStep p (isRequestTrusted p ra) h) p.headerName
          (resolvedIP p h ra)
      else trustHeaderStep p (isRequestTrusted p ra) h) := by
  rw [serveHTTP, if_neg (by simp [hen])]
  rfl

/-- C2: output application — with `forceOverwrite` the destination header
always carries the resolved value (including the empty string when nothing
resolved); without it, the destination header carries the resolved value
exactly when that value is non-empty, and an empty resolution leaves the
header state exactly as it was after the indicator step (in particular the
destination header keeps its prior value whenever the indicator header is a
different header). -/
theorem output_application (p : Plugin) (h : String → String) (ra : String)
    (hen : p.enabled = true) :
    (p.forceOverwrite = true →
      serveHTTP p h ra p.headerName = resolvedIP p h ra) ∧
    (p.forceOverwrite = false → resolvedIP p h ra ≠ "" →
      serveHTTP p h ra p.headerName = resolvedIP p h ra) ∧
    (p.forceOverwrite = false → resolvedIP p h ra = "" →
      serveHTTP p h ra = trustHeaderStep p (isRequestTrusted p ra) h) ∧
    (p.forceOverwrite = false → resolvedIP p h ra = "" →
      p.trustedHeader ≠ p.headerName →
      serveHTTP p h ra p.headerName = h p.headerName) := by
  rw [serveHTTP_enabled p h ra hen]
  refine ⟨?_, ?_, ?_, ?_⟩
  · intro hfo
    simp [hfo, hSet]
  · intro hfo hne
    simp [hfo, hne, hSet]
  · intro hfo hres
    simp [hfo, hres]
  · intro hfo hres hth
    rw [if_neg (by simp [hfo, hres])]
    by_cases h0 : p.trustedHeader = ""
    · rw [trustHeaderStep, if_pos h0]
    · rw [trustHeaderStep, if_neg h0]
      simp only [hSet]
      exact if_neg (fun he => hth (Eq.symm he))

/-- C2 witness: the theorem applied to the example configuration, where
`forceOverwrite` is on and the resolved value is the cleaned connection
address. -/
theorem output_application_witness :
    serveHTTP egPlugin egHeaders "8.8.8.8:1234" egPlugin.headerName =
      resolvedIP egPlugin egHeaders "8.8.8.8:1234" :=
  (output_application egPlugin egHeaders "8.8.8.8:1234" rfl).1 rfl

/-- C9 counterexample: when the configured indicator header coincides with
the destination header, the destination write (which runs after the
indicator write) overwrites the indicator, so the processed request does
not end up with `"yes"`/`"no"` in that header even though an indicator
header is configured and the request is processed and trusted. -/
theorem trust_indicator_counterexample :
    (Plugin.mk true "X-Real-IP" [⟨"clientAddress", -1⟩] true true none
        "X-Real-IP").trustedHeader ≠ "" ∧
    isRequestTrusted
      (Plugin.mk true "X-Real-IP" [⟨"clientAddress", -1⟩] true true none
        "X-Real-IP") "1.2.3.4" = true ∧
    serveHTTP
      (Plugin.mk true "X-Real-IP" [⟨"clientAddress", -1⟩] true true none
        "X-Real-IP") (fun _ => "") "1.2.3.4" "X-Real-IP" = "1.2.3.4" ∧
    serveHTTP
      (Plugin.mk true "X-Real-IP" [⟨"clientAddress", -1⟩] true true none
        "X-Real-IP") (fun _ => "") "1.2.3.4" "X-Real-IP" ≠ "yes" ∧
    serveHTTP
      (Plugin.mk true "X-Real-IP" [⟨"clientAddress", -1⟩] true true none
        "X-Real-IP") (fun _ => "") "1.2.3.4" "X-Real-IP" ≠ "no" := by
  decide

/-- C9 (amended): whenever a trust-indicator header name is configured and
differs from the destination header name, every processed request ends
with that header set to exactly `"yes"` when the connection address is
classified trusted and exactly `"no"` otherwise, regardless of whether
resolution produced a non-empty value. -/
theorem trust_indicator (p : Plugin) (h : String → String) (ra : String)
    (hen : p.enabled = true) (hth : p.trustedHeader ≠ "")
    (hne : p.trustedHeader ≠ p.headerName) :
    serveHTTP p h ra p.trustedHeader =
      (if isRequestTrusted p ra then "yes" else "no") := by
  rw [serveHTTP_enabled p h ra hen]
  have hstep : trustHeaderStep p (isRequestTrusted p ra) h p.trustedHeader =
      (if isRequestTrusted p ra then "yes" else "no") := by
    rw [trustHeaderStep, if_neg hth]
    simp [hSet]
  by_cases hcond : (p.forceOverwrite || decide (resolvedIP p h ra ≠ "")) = true
  · rw [if_pos hcond]
    simp only [hSet]
    rw [if_neg hne]
    exact hstep
  · rw [if_neg hcond]
    exact hstep

/-- C9 witness: the amended theorem applied to the example configuration,
whose indicator header differs from the destination header. -/
theorem trust_indicator_witness :
    serveHTTP egPlugin egHeaders "8.8.8.8:1234" egPlugin.trustedHeader =
      (if isRequestTrusted egPlugin "8.8.8.8:1234" then "yes" else "no") :=
  trust_indicator egPlugin egHeaders "8.8.8.8:1234" rfl (by decide) (by decide)

/-- C10: frame effect — a disabled plugin changes no header at all, and an
enabled one changes at most the destination header and (when configured)
the indicator header: every header whose name differs from both keeps its
value.  The connection's remote address is only ever read by the embedding
of `ServeHTTP`, never written. -/
theorem frame_effect (p : Plugin) (h : String → String) (ra : String) :
    (p.enabled = false → serveHTTP p h ra = h) ∧
    (∀ n : String, n ≠ p.headerName →
      (p.trustedHeader = "" ∨ n ≠ p.trustedHeader) →
      serveHTTP p h ra n = h n) := by
  constructor
  · intro hd
    rw [serveHTTP, if_pos hd]
  · intro n hn1 hn2
    have hstep : trustHeaderStep p (isRequestTrusted p ra) h n = h n := by
      rcases hn2 with h0 | h0
      · rw [trustHeaderStep, if_pos h0]
      · by_cases hth : p.trustedHeader = ""
        · rw [trustHeaderStep, if_pos hth]
        · rw [trustHeaderStep, if_neg hth]
          simp only [hSet]
          rw [if_neg h0]
    by_cases he : p.enabled = true
    · rw [serveHTTP_enabled p h ra he]
      by_cases hcond : (p.forceOverwrite || decide (resolvedIP p h ra ≠ "")) = true
      · rw [if_pos hcond]
        simp only [hSet]
        rw [if_neg hn1]
        exact hstep
      · rw [if_neg hcond]
        exact hstep
    · have hd : p.enabled = false := by
        revert he
        cases p.enabled <;> simp
      rw [serveHTTP, if_pos hd]

/-- C10 witness: the theorem applied to the example configuration at an
unrelated header name. -/
theorem frame_effect_witness :
    serveHTTP egPlugin egHeaders "8.8.8.8:1234" "Accept-Language" =
      egHeaders "Accept-Language" :=
  (frame_effect egPlugin egHeaders "8.8.8.8:1234").2 "Accept-Language"
    (by decide) (Or.inr (by decide))

/-- C6: most-specific-match lookup — a table with no containing range
reports no match; whenever some range contains the address, the lookup
reports a match whose specificity is an upper bound of every containing
range's prefix length and is itself the prefix length of one containing
range, hence the largest prefix length among all containing ranges. -/
theorem most_specific_match (table : List NetworkRange) (ip : IPAddr) :
    ((∀ r ∈ table, rangeContains r ip = false) →
      IsContained table ip = (false, 0)) ∧
    (∀ r ∈ table, rangeContains r ip = true →
      (IsContained table ip).1 = true ∧
      r.prefixLen ≤ (IsContained table ip).2) ∧
    ((IsContained table ip).1 = true →
      ∃ r ∈ table, rangeContains r ip = true ∧
        r.prefixLen = (IsContained table ip).2) := by
  refine ⟨?_, ?_, ?_⟩
  · induction table with
    | nil => intro _; rfl
    | cons a rest ih =>
      intro hall
      have ha : rangeContains a ip = false := hall a (by simp)
      have hrest := ih (fun x hx => hall x (by simp [hx]))
      simp [IsContained, ha, hrest]
  · induction table with
    | nil =>
      intro r hr
      simp at hr
    | cons a rest ih =>
      intro r hr hcont
      rcases List.mem_cons.mp hr with rfl | hmem
      · refine ⟨by simp [IsContained, hcont], ?_⟩
        simp only [IsContained, hcont, if_true]
        by_cases hacc : (IsContained rest ip).1 = true
        · simp [hacc, le_max_left]
        · simp [hacc]
      · have hih := ih r hmem hcont
        by_cases ha : rangeContains a ip = true
        · refine ⟨by simp [IsContained, ha], ?_⟩
          simp only [IsContained, ha, if_true, hih.1]
          exact le_trans hih.2 (le_max_right _ _)
        · simpa [IsContained, ha] using hih
  · induction table with
    | nil =>
      intro hfst
      simp [IsContained] at hfst
    | cons a rest ih =>
      intro hfst
      by_cases ha : rangeContains a ip = true
      · by_cases hacc : (IsContained rest ip).1 = true
        · obtain ⟨r, hrmem, hrcont, hrpl⟩ := ih hacc
          rcases le_total (IsContained rest ip).2 a.prefixLen with hle | hle
          · refine ⟨a, by simp, ha, ?_⟩
            simp [IsContained, ha, hacc, max_eq_left hle]
          · refine ⟨r, by simp [hrmem], hrcont, ?_⟩
            simp [IsContained, ha, hacc, max_eq_right hle, hrpl]
        · refine ⟨a, by simp, ha, ?_⟩
          simp [IsContained, ha, hacc]
      · have hrest : (IsContained rest ip).1 = true := by
          simpa [IsContained, ha] using hfst
        obtain ⟨r, hrmem, hrcont, hrpl⟩ := ih hrest
        refine ⟨r, by simp [hrmem], hrcont, ?_⟩
        simpa [IsContained, ha] using hrpl

/-- C6 witness: in a table holding both `10.0.0.0/8` and `10.0.0.0/24`,
the address `10.0.0.5` matches with specificity at least 24 (and, by the
attainment conjunct, exactly 24). -/
theorem most_specific_match_witness :
    (IsContained [⟨false, 10 * 2 ^ 24, 8⟩, ⟨false, 10 * 2 ^ 24, 24⟩]
        ⟨false, 10 * 2 ^ 24 + 5⟩).1 = true ∧
    (⟨false, 10 * 2 ^ 24, 24⟩ : NetworkRange).prefixLen ≤
      (IsContained [⟨false, 10 * 2 ^ 24, 8⟩, ⟨false, 10 * 2 ^ 24, 24⟩]
        ⟨false, 10 * 2 ^ 24 + 5⟩).2 :=
  (most_specific_match [⟨false, 10 * 2 ^ 24, 8⟩, ⟨false, 10 * 2 ^ 24, 24⟩]
      ⟨false, 10 * 2 ^ 24 + 5⟩).2.1
    ⟨false, 10 * 2 ^ 24, 24⟩ (by decide) (by decide)

/-- Modelled construction aborts with an error as soon as any entry fails
to parse as a CIDR. -/
theorem newHelper_error_of_bad (l : List String) (c : String) (hc : c ∈ l)
    (hpar : parseCIDRstr c = none) :
    ∃ e, NewIpLookupHelper l = Except.error e := by
  induction l with
  | nil => simp at hc
  | cons c0 rest ih =>
    rcases List.mem_cons.mp hc with rfl | hmem
    · exact ⟨"invalid CIDR address: " ++ c, by simp [NewIpLookupHelper, hpar]⟩
    · match hp0 : parseCIDRstr c0 with
      | none =>
        exact ⟨"invalid CIDR address: " ++ c0, by simp [NewIpLookupHelper, hp0]⟩
      | some r =>
        obtain ⟨e, he⟩ := ih hmem
        exact ⟨e, by simp [NewIpLookupHelper, hp0, he]⟩

/-- A successfully constructed table covers every configured entry: each
entry parses and contributes one range, so no partial table exists. -/
theorem newHelper_ok_all (l : List String) (t : List NetworkRange)
    (hok : NewIpLookupHelper l = Except.ok t) :
    t.length = l.length ∧ ∀ c ∈ l, ∃ r, parseCIDRstr c = some r := by
  induction l generalizing t with
  | nil =>
    simp only [NewIpLookupHelper, Except.ok.injEq] at hok
    subst hok
    exact ⟨rfl, by simp⟩
  | cons c0 rest ih =>
    match hp0 : parseCIDRstr c0 with
    | none =>
      rw [NewIpLookupHelper, hp0] at hok
      exact absurd hok (by simp)
    | some r =>
      rw [NewIpLookupHelper, hp0] at hok
      match hr : NewIpLookupHelper rest with
      | Except.error e =>
        rw [hr] at hok
        exact absurd hok (by simp)
      | Except.ok t0 =>
        rw [hr] at hok
        have ht : t = r :: t0 := by
          simpa using hok.symm
        obtain ⟨hlen, hall⟩ := ih t0 hr
        subst ht
        refine ⟨by simp [hlen], ?_⟩
        intro c hcmem
        rcases List.mem_cons.mp hcmem with rfl | hmem
        · exact ⟨r, hp0⟩
        · exact hall c hmem

/-- C7: trust-table construction atomicity — any entry that fails to parse
as a CIDR makes `NewIpLookupHelper` return an error; a successful result
parses every entry into exactly one range (no partial tables); the test
suite's malformed CIDRs (bad syntax, v4 prefix 33, v6 prefix 129, missing
prefix, empty string) all fail to parse; and plugin initialization with
trust gating enabled refuses to complete whenever any trusted-IP entry is
malformed. -/
theorem construction_atomicity :
    (∀ (l : List String) (c : String), c ∈ l → parseCIDRstr c = none →
      ∃ e, NewIpLookupHelper l = Except.error e) ∧
    (∀ (l : List String) (t : List NetworkRange),
      NewIpLookupHelper l = Except.ok t →
      t.length = l.length ∧ ∀ c ∈ l, ∃ r, parseCIDRstr c = some r) ∧
    (parseCIDRstr "invalid-cidr" = none ∧ parseCIDRstr "192.168.1.0/33" = none ∧
      parseCIDRstr "2001:db8::/129" = none ∧ parseCIDRstr "192.168.1" = none ∧
      parseCIDRstr "" = none) ∧
    (∀ cfg : Config, cfg.enabled = true → cfg.trustAll = false →
      (∃ c ∈ cfg.trustedIPs, parseCIDRstr c = none) →
      ∃ e, NewPlugin cfg = Except.error e) := by
  refine ⟨newHelper_error_of_bad, newHelper_ok_all, by decide, ?_⟩
  intro cfg hen hta hbad
  obtain ⟨c, hc, hpar⟩ := hbad
  have htne : cfg.trustedIPs ≠ [] := by
    intro h0
    rw [h0] at hc
    simp at hc
  obtain ⟨e, he⟩ := newHelper_error_of_bad cfg.trustedIPs c hc hpar
  rw [NewPlugin]
  split
  · exact ⟨_, rfl⟩
  · split
    · exact ⟨_, rfl⟩
    · split
      · exact ⟨_, rfl⟩
      · rw [if_pos ⟨hta, htne⟩, he]
        exact ⟨_, rfl⟩

/-- C7 witness: one malformed entry in an otherwise valid list makes
construction fail. -/
theorem construction_atomicity_witness :
    ∃ e, NewIpLookupHelper ["10.0.0.0/8", "invalid-cidr"] = Except.error e :=
  construction_atomicity.1 ["10.0.0.0/8", "invalid-cidr"] "invalid-cidr"
    (by decide) (by decide)

/-- C8: per-request totality — the resolution walk always yields a string
that is either empty or produced by one of the specs (never an error); a
missing header makes its spec yield nothing; an out-of-bounds non-negative
depth makes depth selection yield nothing; a spec that yields nothing only
makes the walk continue; and with gating configured an unparseable or
empty cleaned connection address merely classifies the request as
untrusted. -/
theorem per_request_totality :
    (∀ (specs : List HeaderConfig) (g : Bool) (h : String → String)
        (ra : String),
      extractLoop specs g h ra = "" ∨
        ∃ hc ∈ specs, processSpec hc g h ra = some (extractLoop specs g h ra)) ∧
    (∀ (hc : HeaderConfig) (h : String → String) (ra : String),
      hc.headerName ≠ "clientAddress" → h hc.headerName = "" →
      processSpec hc false h ra = none) ∧
    (∀ (l : List String) (d : Int), 0 ≤ d → (l.length : Int) ≤ d →
      selectByDepth l d = none) ∧
    (∀ (hc : HeaderConfig) (g : Bool) (h : String → String) (ra : String)
        (rest : List HeaderConfig), processSpec hc g h ra = none →
      extractLoop (hc :: rest) g h ra = extractLoop rest g h ra) ∧
    (∀ (p : Plugin) (ra : String), p.trustAll = false →
      parseIP (cleanIPAddress ra) = none → isRequestTrusted p ra = false) ∧
    (∀ (p : Plugin) (ra : String), p.trustAll = false →
      cleanIPAddress ra = "" → isRequestTrusted p ra = false) := by
  refine ⟨?_, ?_, ?_, ?_, ?_, ?_⟩
  · intro specs g h ra
    induction specs with
    | nil => exact Or.inl rfl
    | cons hc rest ih =>
      match hp : processSpec hc g h ra with
      | some ip =>
        refine Or.inr ⟨hc, by simp, ?_⟩
        simp [extractLoop, hp]
      | none =>
        have hloop : extractLoop (hc :: rest) g h ra = extractLoop rest g h ra := by
          simp [extractLoop, hp]
        rw [hloop]
        rcases ih with h0 | ⟨x, hx, hpx⟩
        · exact Or.inl h0
        · exact Or.inr ⟨x, by simp [hx], hpx⟩
  · intro hc h ra hns hval
    simp [processSpec, hns, hval]
  · intro l d h0 hge
    have hnneg : ¬ d < 0 := by omega
    have hcond : ¬ (0 ≤ (l.length : Int) - 1 - d ∧
        (l.length : Int) - 1 - d < (l.length : Int)) := by omega
    simp [selectByDepth, hnneg, hcond]
    omega
  · intro hc g h ra rest hnone
    simp [extractLoop, hnone]
  · intro p ra hta hparse
    rw [isRequestTrusted, if_neg (by simp [hta])]
    match p.trustedIPs with
    | none => rfl
    | some table =>
      by_cases hce : cleanIPAddress ra = ""
      · simp [hce]
      · simp [hce, hparse]
  · intro p ra hta hce
    rw [isRequestTrusted, if_neg (by simp [hta])]
    match p.trustedIPs with
    | none => rfl
    | some table => simp [hce]

/-- C8 witness: a spec whose header is absent yields nothing at a concrete
input. -/
theorem per_request_totality_witness :
    processSpec ⟨"X-Forwarded-For", (-1 : Int)⟩ false (fun _ => "") "8.8.8.8" =
      none :=
  per_request_totality.2.1 ⟨"X-Forwarded-For", (-1 : Int)⟩ (fun _ => "")
    "8.8.8.8" (by decide) rfl

end RealIP
